import Mathlib

/-!
Verification of the battery-dataset feature mapper
(`src/battery_feature_mapper.py`) and the dataset loader
(`data_loader.py`).

Modelling conventions:
* Python's ordered `dict` is an association list `List (String × _)` whose
  keys are pairwise distinct; insertion appends, key update rewrites in place.
* The regex matcher `re.compile(pattern, re.IGNORECASE).search(col)` is
  abstracted as a boolean predicate `m : String → String → Bool` in the
  generic development.  All built-in patterns of the mapper are literal
  strings (no regex metacharacters), for which `re.search` with
  `re.IGNORECASE` is exactly case-insensitive substring containment; the
  executable instance `ciContains` implements that.
* `print` diagnostics that carry information claimed by the spec are
  modelled by an explicit `Diag` list; purely informational shape/count
  prints are not modelled (they do not affect any result).
-/

/-- ASCII lowercase of a string, `Char.toLower` on every character
(the behaviour of Python's case-insensitive matching on the ASCII-only
patterns and column names involved). -/
def lowerStr (s : String) : String := ⟨s.data.map Char.toLower⟩

/-- `substrAt p s` : the character list `p` occurs as a contiguous
sublist of `s`. -/
def substrAt (p : List Char) : List Char → Bool
  | [] => p.isEmpty
  | c :: cs => p.isPrefixOf (c :: cs) || substrAt p cs

/-- Case-insensitive "contains a match" test for a *literal* pattern:
`re.compile(pat, re.IGNORECASE).search(col)` succeeds iff the lowercased
pattern is a substring of the lowercased column name. -/
def ciContains (pat col : String) : Bool :=
  substrAt (lowerStr pat).data (lowerStr col).data

/-- `self.feature_patterns` as initialised in `BatteryFeatureMapper.__init__`:
the six built-in features, each with its ordered pattern list. -/
def defaultFeaturePatterns : List (String × List String) :=
  [ ("capacity",
      ["capacity", "cap", "q", "charge_capacity", "discharge_capacity",
       "nominal_capacity", "ah", "ampere_hour", "mah", "milliampere"]),
    ("voltage",
      ["voltage", "volt", "v", "batt_voltage", "cell_voltage",
       "terminal_voltage", "v_batt", "volts", "voltage_v"]),
    ("current",
      ["current", "curr", "i", "batt_current", "cell_current",
       "discharge_current", "charge_current", "amps", "amperes",
       "current_a", "ampere"]),
    ("temperature",
      ["temperature", "temp", "tmp", "batt_temp", "cell_temp",
       "t_batt", "thermal", "deg", "celsius", "fahrenheit",
       "temp_c", "temp_f"]),
    ("discharge_time",
      ["discharge_time", "disch_time", "t_discharge", "t_disch",
       "discharge_duration", "duration_discharge", "disc_time",
       "time_discharge"]),
    ("charge_time",
      ["charge_time", "chg_time", "t_charge", "t_chg",
       "charge_duration", "duration_charge", "ch_time",
       "time_charge"]) ]

/-- The loop state of `find_matching_columns`: `found` is the `matches`
result dict (in insertion order), `used` the `used_columns` set (a list,
only membership is relevant). -/
structure MState where
  found : List (String × String)
  used : List String
deriving DecidableEq

/-- `feature in matches` on the result dict. -/
def hasKey (k : String) (l : List (String × String)) : Bool :=
  l.any (fun p => p.1 == k)

/-- The innermost loop of `find_matching_columns`: scan the remaining
columns; at the first column `col` with `regex.search(col)`,
`col not in used_columns` and `feature not in matches`, record the match
and `break`. -/
def innerLoop (m : String → String → Bool) (feature pat : String)
    (st : MState) : List String → MState
  | [] => st
  | col :: cols =>
    if m pat col && !st.used.contains col && !hasKey feature st.found then
      ⟨st.found ++ [(feature, col)], col :: st.used⟩
    else
      innerLoop m feature pat st cols

/-- The middle loop of `find_matching_columns`: try each pattern in order
against the full column list; after a pattern, `break` as soon as
`feature in matches`. -/
def patternLoop (m : String → String → Bool) (feature : String)
    (cols : List String) (st : MState) : List String → MState
  | [] => st
  | pat :: pats =>
    let st1 := innerLoop m feature pat st cols
    if hasKey feature st1.found then st1
    else patternLoop m feature cols st1 pats

/-- `BatteryFeatureMapper.find_matching_columns`, generic in the regex
predicate `m` and the `feature_patterns` registry `fps`: fold the
per-feature pattern loop over the registry starting from empty
`matches` / `used_columns`. -/
def find_matching_columns (m : String → String → Bool)
    (fps : List (String × List String)) (cols : List String) :
    List (String × String) :=
  (fps.foldl (fun st fp => patternLoop m fp.1 cols st fp.2) ⟨[], []⟩).found

/-- Modelled from the spec's words (§4.1), for comparison with
`find_matching_columns`: the greedy algorithm.  For each feature in
declaration order, try its patterns in declared order; a pattern yields the
first column in the given order that matches and is not yet consumed
(`used`); the first pattern that yields a column binds the feature and its
column is consumed; a feature none of whose patterns yields a column is
absent from the result. -/
def firstEligible (m : String → String → Bool) (pat : String)
    (used : List String) : List String → Option String
  | [] => none
  | col :: cols =>
    if m pat col && !used.contains col then some col
    else firstEligible m pat used cols

/-- Spec-side: the column a feature's pattern list acquires, given the set
of already-consumed columns — first pattern (in declared order) that yields
an eligible column wins. -/
def featureMatch (m : String → String → Bool) (used : List String)
    (cols : List String) : List String → Option String
  | [] => none
  | pat :: pats =>
    match firstEligible m pat used cols with
    | some col => some col
    | none => featureMatch m used cols pats

/-- Spec-side: the whole greedy matching, features in declaration order,
threading the consumed-column set. -/
def greedyMatching (m : String → String → Bool) (cols : List String)
    (used : List String) : List (String × List String) → List (String × String)
  | [] => []
  | (feature, pats) :: rest =>
    match featureMatch m used cols pats with
    | some col => (feature, col) :: greedyMatching m cols (col :: used) rest
    | none => greedyMatching m cols used rest

/-- `BatteryFeatureMapper.add_custom_pattern`: dict assignment
`self.feature_patterns[feature_name] = patterns` — an existing key keeps
its position and gets the new value (the old pattern list is discarded);
a new key is appended.  (`self.standard_features` is recomputed as the key
list; being derived data, it is not modelled separately.) -/
def add_custom_pattern (fps : List (String × List String))
    (feature_name : String) (patterns : List String) :
    List (String × List String) :=
  if fps.any (fun p => p.1 == feature_name) then
    fps.map (fun p => if p.1 == feature_name then (feature_name, patterns) else p)
  else
    fps ++ [(feature_name, patterns)]

/-- Warning diagnostics emitted by the mapper (the `print` calls whose
content the spec assigns meaning to). -/
inductive Diag where
  /-- `Warning: Column not found in dataframe` for a mapped column
  absent from the table. -/
  | columnNotFound (col : String)
  /-- `Warning: Unknown strategy. Using mean instead.` -/
  | unknownStrategy (strategy : String)
deriving DecidableEq

/-- A dataframe column: pandas dtypes are per-column, so a column is either
numeric (cells rational, `none` = NaN) or non-numeric (modelled as optional
strings, `none` = missing). -/
inductive Column where
  | numeric (vals : List (Option ℚ))
  | text (vals : List (Option String))
deriving DecidableEq

/-- A dataframe: ordered association list of column name to column. -/
abbrev Table : Type := List (String × Column)

/-- `BatteryFeatureMapper.extract_features` with an explicit mapping:
for each `(std_feature, actual_col)` pair in mapping order, if
`actual_col` is a column of `df`, copy it into the result under
`std_feature`; otherwise emit the warning diagnostic and skip the pair.
Returns the result table together with the emitted warnings.  (The final
informational `Missing features` print does not affect the result and is
not modelled.) -/
def extract_features (df : Table) : List (String × String) → Table × List Diag
  | [] => ([], [])
  | (std_feature, actual_col) :: rest =>
    let r := extract_features df rest
    match List.lookup actual_col df with
    | some col => ((std_feature, col) :: r.1, r.2)
    | none => (r.1, Diag.columnNotFound actual_col :: r.2)

/-- Row count of a table (pandas frames have equal-length columns; we take
the maximum so the definition is total). -/
def colLen : Column → Nat
  | .numeric vs => vs.length
  | .text vs => vs.length

/-- Cell `i` of a column is missing (NaN). -/
def cellMissing : Column → Nat → Bool
  | .numeric vs, i => (vs.getD i none).isNone
  | .text vs, i => (vs.getD i none).isNone

/-- Number of rows of a table. -/
def nRows (df : Table) : Nat := df.foldl (fun n p => max n (colLen p.2)) 0

/-- `df.dropna()` keeps row `i` iff no column has a missing cell at `i`. -/
def rowComplete (df : Table) (i : Nat) : Bool :=
  df.all (fun p => !cellMissing p.2 i)

/-- Keep the entries of `vs` at the indices accepted by `keep`. -/
def keepRows (keep : Nat → Bool) (vs : List α) : List α :=
  (vs.enum.filter (fun pr => keep pr.1)).map Prod.snd

/-- `df.dropna()`: remove every row that has at least one missing value. -/
def dropna (df : Table) : Table :=
  df.map (fun p =>
    match p.2 with
    | .numeric vs => (p.1, Column.numeric (keepRows (rowComplete df) vs))
    | .text vs => (p.1, Column.text (keepRows (rowComplete df) vs)))

/-- Column mean over the present values (`Series.mean`): NaN (`none`) when
no value is present. -/
def colMean (vs : List (Option ℚ)) : Option ℚ :=
  let present := vs.filterMap id
  if present.length = 0 then none
  else some (present.sum / (present.length : ℚ))

/-- Column median over the present values (`Series.median`): middle element
of the sorted present values, or the mean of the two middle elements; NaN
when no value is present. -/
def colMedian (vs : List (Option ℚ)) : Option ℚ :=
  let present := (vs.filterMap id).mergeSort (fun a b => a ≤ b)
  let n := present.length
  if n = 0 then none
  else if n % 2 = 1 then some (present.getD (n / 2) 0)
  else some ((present.getD (n / 2 - 1) 0 + present.getD (n / 2) 0) / 2)

/-- Fill the missing cells of a numeric column with `v` (`fillna` with a
possibly-NaN fill value: filling with NaN leaves the cell missing). -/
def fillWith (v : Option ℚ) (vs : List (Option ℚ)) : List (Option ℚ) :=
  vs.map (fun c => match c with | some x => some x | none => v)

/-- `df.fillna(df.mean(numeric_only=True))`: each numeric column's missing
cells are filled with that column's mean; non-numeric columns are untouched
(`numeric_only`). -/
def fillnaMean (df : Table) : Table :=
  df.map (fun p =>
    match p.2 with
    | .numeric vs => (p.1, Column.numeric (fillWith (colMean vs) vs))
    | .text vs => (p.1, Column.text vs))

/-- `df.fillna(df.median(numeric_only=True))`. -/
def fillnaMedian (df : Table) : Table :=
  df.map (fun p =>
    match p.2 with
    | .numeric vs => (p.1, Column.numeric (fillWith (colMedian vs) vs))
    | .text vs => (p.1, Column.text vs))

/-- Forward fill of one column: each missing cell takes the nearest earlier
present value; a leading gap stays missing (`last` starts as `none`). -/
def ffillCol (last : Option α) : List (Option α) → List (Option α)
  | [] => []
  | c :: cs =>
    match c with
    | some x => some x :: ffillCol (some x) cs
    | none => last :: ffillCol last cs

/-- `df.fillna(method=ffill)`: forward fill every column. -/
def ffill (df : Table) : Table :=
  df.map (fun p =>
    match p.2 with
    | .numeric vs => (p.1, Column.numeric (ffillCol none vs))
    | .text vs => (p.1, Column.text (ffillCol none vs)))

/-- `df.fillna(method=bfill)`: backward fill = forward fill on the
reversed column. -/
def bfill (df : Table) : Table :=
  df.map (fun p =>
    match p.2 with
    | .numeric vs => (p.1, Column.numeric (ffillCol none vs.reverse).reverse)
    | .text vs => (p.1, Column.text (ffillCol none vs.reverse).reverse))

/-- A heap of dataframes, to make Python's object identity explicit:
a dataframe variable is an index into the store. -/
structure Store where
  tables : List Table
deriving DecidableEq

/-- Allocate a fresh dataframe object, returning the new store and the new
object's index.  Every pandas operation used by the code (`copy`, `dropna`,
`fillna` without `inplace`) returns a fresh frame, i.e. allocates. -/
def alloc (st : Store) (t : Table) : Store × Nat :=
  (⟨st.tables ++ [t]⟩, st.tables.length)

/-- Read the dataframe currently held at index `r`. -/
def readT (st : Store) (r : Nat) : Table := st.tables.getD r []

/-- `BatteryFeatureMapper.handle_missing_values`, with the caller's frame
passed by reference (an index into the store): `df_clean = df.copy()`
allocates a copy, then each strategy branch rebinds `df_clean` to a freshly
allocated result frame; an unrecognised strategy emits the warning
diagnostic and falls back to the mean fill.  Returns (new store, index of
the returned frame, warnings).  The trailing informational prints (shape
and missing-value counts) do not affect the result and are not modelled. -/
def handle_missing_values (st : Store) (df : Nat) (strategy : String) :
    Store × Nat × List Diag :=
  let a1 := alloc st (readT st df)
  let df_clean := readT a1.1 a1.2
  if strategy == "drop" then
    let a2 := alloc a1.1 (dropna df_clean); (a2.1, a2.2, [])
  else if strategy == "mean" then
    let a2 := alloc a1.1 (fillnaMean df_clean); (a2.1, a2.2, [])
  else if strategy == "median" then
    let a2 := alloc a1.1 (fillnaMedian df_clean); (a2.1, a2.2, [])
  else if strategy == "forward_fill" then
    let a2 := alloc a1.1 (ffill df_clean); (a2.1, a2.2, [])
  else if strategy == "backward_fill" then
    let a2 := alloc a1.1 (bfill df_clean); (a2.1, a2.2, [])
  else
    let a2 := alloc a1.1 (fillnaMean df_clean)
    (a2.1, a2.2, [Diag.unknownStrategy strategy])

/-- Index of the last occurrence of `c` in the character list, if any
(Python's `str.rfind`, with `none` for `-1`). -/
def lastIndexOfC (c : Char) : List Char → Option Nat
  | [] => none
  | a :: as =>
    match lastIndexOfC c as with
    | some i => some (i + 1)
    | none => if a == c then some 0 else none

/-- `os.path.splitext` (posix): split off the extension beginning at the
last dot that lies after the last path separator, provided the basename is
not made of dots only up to that dot (so `.bashrc` has no extension). -/
def splitext (p : String) : String × String :=
  let cs := p.data
  match lastIndexOfC '.' cs with
  | none => (p, "")
  | some d =>
    let start :=
      match lastIndexOfC '/' cs with
      | none => 0
      | some s => s + 1
    if start ≤ d && ((cs.drop start).take (d - start)).any (fun ch => ch != '.') then
      (⟨cs.take d⟩, ⟨cs.drop d⟩)
    else (p, "")

/-- Outcome of `BatteryDataLoader.load_dataset`: which pandas reader the
extension dispatches to, or the `ValueError` for an unsupported format
carrying the (lowercased) extension. -/
inductive LoadResult where
  | csv
  | excel
  | parquet
  | json
  | unsupportedFormat (ext : String)
deriving DecidableEq

/-- `BatteryDataLoader.load_dataset`: dispatch on the lowercased extension
`os.path.splitext(file_path)[1].lower()`; any unsupported extension raises
`ValueError` carrying that extension.  The pandas readers themselves are
outside the model; only the dispatch is represented. -/
def load_dataset (file_path : String) : LoadResult :=
  let file_ext := lowerStr (splitext file_path).2
  if file_ext == ".csv" then .csv
  else if file_ext == ".xlsx" || file_ext == ".xls" then .excel
  else if file_ext == ".parquet" then .parquet
  else if file_ext == ".json" then .json
  else .unsupportedFormat file_ext

/-! ### Lemmas: the matching loop refines the spec's greedy algorithm -/

/-- Appending a binding for `g` to the result dict. -/
lemma hasKey_append_single (f g : String) (l : List (String × String)) (c : String) :
    hasKey f (l ++ [(g, c)]) = (hasKey f l || g == f) := by
  simp [hasKey, List.any_append]

/-- The inner column scan binds the feature to the first eligible column,
provided the feature is still unbound and `used` agrees with the spec-side
consumed set `u`. -/
lemma innerLoop_spec (m : String → String → Bool) (f p : String)
    (st : MState) (u : List String)
    (hk : hasKey f st.found = false)
    (hu : ∀ c, st.used.contains c = u.contains c)
    (cols : List String) :
    innerLoop m f p st cols =
      (match firstEligible m p u cols with
       | some col => ⟨st.found ++ [(f, col)], col :: st.used⟩
       | none => st) := by
  induction cols with
  | nil => simp [innerLoop, firstEligible]
  | cons col cols ih =>
    rw [innerLoop, firstEligible, hk, hu col, Bool.not_false, Bool.and_true]
    by_cases hc : (m p col && !u.contains col) = true
    · rw [if_pos hc, if_pos hc]
    · rw [if_neg hc, if_neg hc, ih]

/-- The pattern loop realises the spec's per-feature `featureMatch`:
the first pattern yielding an eligible column binds the feature, and the
loop stops there. -/
lemma patternLoop_spec (m : String → String → Bool) (f : String)
    (cols : List String) (u : List String) (pats : List String) (st : MState)
    (hk : hasKey f st.found = false)
    (hu : ∀ c, st.used.contains c = u.contains c) :
    patternLoop m f cols st pats =
      (match featureMatch m u cols pats with
       | some col => ⟨st.found ++ [(f, col)], col :: st.used⟩
       | none => st) := by
  induction pats with
  | nil => simp [patternLoop, featureMatch]
  | cons pat pats ih =>
    simp only [patternLoop, innerLoop_spec m f pat st u hk hu cols, featureMatch]
    cases hfe : firstEligible m pat u cols with
    | some col => simp [hasKey_append_single]
    | none => simp [hk, ih]

/-- The whole fold over the registry computes the spec's greedy matching,
appended to whatever was already in the result dict. -/
lemma foldl_eq_greedy (m : String → String → Bool) (cols : List String)
    (fps : List (String × List String)) :
    ∀ (st : MState) (u : List String),
    (fps.map Prod.fst).Nodup →
    (∀ f ∈ fps.map Prod.fst, hasKey f st.found = false) →
    (∀ c, st.used.contains c = u.contains c) →
    (fps.foldl (fun st fp => patternLoop m fp.1 cols st fp.2) st).found
      = st.found ++ greedyMatching m cols u fps := by
  induction fps with
  | nil =>
    intro st u _ _ _
    simp [greedyMatching]
  | cons fp rest ih =>
    intro st u hnd hk hu
    obtain ⟨f, pats⟩ := fp
    simp only [List.map_cons, List.nodup_cons] at hnd
    rw [List.foldl_cons]
    simp only
    rw [patternLoop_spec m f cols u pats st (hk f (by simp)) hu]
    cases hfe : featureMatch m u cols pats with
    | some col =>
      simp only [hfe]
      have hk2 : ∀ g ∈ rest.map Prod.fst,
          hasKey g (st.found ++ [(f, col)]) = false := by
        intro g hg
        rw [hasKey_append_single]
        have h1 : hasKey g st.found = false := hk g (by simp [hg])
        have h2 : f ≠ g := fun he => hnd.1 (he ▸ hg)
        simp [h1, h2]
      have hu2 : ∀ c, (col :: st.used).contains c = (col :: u).contains c := by
        intro c
        rw [List.contains_cons, List.contains_cons, hu c]
      rw [ih ⟨st.found ++ [(f, col)], col :: st.used⟩ (col :: u) hnd.2 hk2 hu2]
      simp [greedyMatching, hfe]
    | none =>
      simp only [hfe]
      have hk2 : ∀ g ∈ rest.map Prod.fst, hasKey g st.found = false :=
        fun g hg => hk g (by simp [hg])
      rw [ih st u hnd.2 hk2 hu]
      simp [greedyMatching, hfe]

/-- `find_matching_columns` is exactly the spec's greedy matching, for any
registry with (dict-)distinct feature names. -/
lemma find_eq_greedy (m : String → String → Bool)
    (fps : List (String × List String)) (cols : List String)
    (h : (fps.map Prod.fst).Nodup) :
    find_matching_columns m fps cols = greedyMatching m cols [] fps := by
  unfold find_matching_columns
  rw [foldl_eq_greedy m cols fps ⟨[], []⟩ [] h (by intro f _; simp [hasKey])
      (fun c => rfl)]
  simp

/-! ### Lemmas: properties of the greedy matching -/

/-- A column returned by `firstEligible` comes from the scanned list,
matches the pattern and is unconsumed. -/
lemma firstEligible_eq_some (m : String → String → Bool) (p : String)
    (u : List String) :
    ∀ (cols : List String) (col : String),
    firstEligible m p u cols = some col →
    col ∈ cols ∧ u.contains col = false := by
  intro cols
  induction cols with
  | nil => intro col h; simp [firstEligible] at h
  | cons c cs ih =>
    intro col h
    rw [firstEligible] at h
    by_cases hc : (m p c && !u.contains c) = true
    · rw [if_pos hc] at h
      cases h
      refine ⟨List.mem_cons_self c cs, ?_⟩
      rw [Bool.and_eq_true] at hc
      simpa using hc.2
    · rw [if_neg hc] at h
      obtain ⟨h1, h2⟩ := ih col h
      exact ⟨List.mem_cons_of_mem c h1, h2⟩

/-- A column returned by `featureMatch` comes from the column list and is
unconsumed. -/
lemma featureMatch_eq_some (m : String → String → Bool) (u cols : List String) :
    ∀ (pats : List String) (col : String),
    featureMatch m u cols pats = some col →
    col ∈ cols ∧ u.contains col = false := by
  intro pats
  induction pats with
  | nil => intro col h; simp [featureMatch] at h
  | cons p ps ih =>
    intro col h
    rw [featureMatch] at h
    cases hfe : firstEligible m p u cols with
    | some c =>
      rw [hfe] at h
      cases h
      exact firstEligible_eq_some m p u cols _ hfe
    | none =>
      rw [hfe] at h
      exact ih col h

/-- Every pair of the greedy matching has a key from the registry and a
value that is an unconsumed column. -/
lemma greedyMatching_mem (m : String → String → Bool) (cols : List String) :
    ∀ (fps : List (String × List String)) (u : List String) (q : String × String),
    q ∈ greedyMatching m cols u fps →
    q.1 ∈ fps.map Prod.fst ∧ q.2 ∈ cols ∧ u.contains q.2 = false := by
  intro fps
  induction fps with
  | nil => intro u q h; simp [greedyMatching] at h
  | cons fp rest ih =>
    intro u q h
    obtain ⟨f, pats⟩ := fp
    rw [greedyMatching] at h
    cases hfe : featureMatch m u cols pats with
    | some col =>
      rw [hfe] at h
      rcases List.mem_cons.mp h with h | h
      · subst h
        obtain ⟨hc, hu⟩ := featureMatch_eq_some m u cols pats col hfe
        exact ⟨by simp, hc, hu⟩
      · obtain ⟨h1, h2, h3⟩ := ih (col :: u) q h
        rw [List.contains_cons] at h3
        refine ⟨by simp [h1], h2, ?_⟩
        exact (Bool.or_eq_false_iff.mp h3).2
    | none =>
      rw [hfe] at h
      obtain ⟨h1, h2, h3⟩ := ih u q h
      exact ⟨by simp [h1], h2, h3⟩

/-- The greedy matching never consumes a column twice: its values are
pairwise distinct. -/
lemma greedyMatching_snd_nodup (m : String → String → Bool) (cols : List String) :
    ∀ (fps : List (String × List String)) (u : List String),
    ((greedyMatching m cols u fps).map Prod.snd).Nodup := by
  intro fps
  induction fps with
  | nil => intro u; simp [greedyMatching]
  | cons fp rest ih =>
    intro u
    obtain ⟨f, pats⟩ := fp
    rw [greedyMatching]
    cases hfe : featureMatch m u cols pats with
    | some col =>
      simp only [List.map_cons, List.nodup_cons]
      refine ⟨?_, ih (col :: u)⟩
      intro hmem
      obtain ⟨q, hq, hq2⟩ := List.mem_map.mp hmem
      have h3 := (greedyMatching_mem m cols rest (col :: u) q hq).2.2
      rw [hq2, List.contains_cons] at h3
      simp at h3
    | none => exact ih u

/-- A pattern that matches no column yields no eligible column. -/
lemma firstEligible_none (m : String → String → Bool) (p : String)
    (u : List String) :
    ∀ cols : List String, (∀ c ∈ cols, m p c = false) →
    firstEligible m p u cols = none := by
  intro cols
  induction cols with
  | nil => intro _; rfl
  | cons c cs ih =>
    intro h
    rw [firstEligible]
    rw [h c (List.mem_cons_self c cs)]
    simp only [Bool.false_and, if_neg (by simp : ¬(false = true))]
    exact ih fun x hx => h x (List.mem_cons_of_mem c hx)

/-- A feature none of whose patterns matches any column acquires no match. -/
lemma featureMatch_none (m : String → String → Bool) (u cols : List String) :
    ∀ pats : List String, (∀ p ∈ pats, ∀ c ∈ cols, m p c = false) →
    featureMatch m u cols pats = none := by
  intro pats
  induction pats with
  | nil => intro _; rfl
  | cons p ps ih =>
    intro h
    rw [featureMatch, firstEligible_none m p u cols (h p (by simp))]
    exact ih fun x hx => h x (by simp [hx])

/-- Dict assignment: after `add_custom_pattern`, looking up the assigned
feature yields exactly the new pattern list. -/
lemma lookup_add_custom_pattern (name : String) (pats : List String) :
    ∀ fps : List (String × List String),
    List.lookup name (add_custom_pattern fps name pats) = some pats := by
  intro fps
  induction fps with
  | nil => simp [add_custom_pattern, List.lookup]
  | cons q rest ih =>
    rw [add_custom_pattern]
    by_cases hq : (q.1 == name) = true
    · rw [if_pos (by simp [List.any_cons, hq])]
      rw [List.map_cons, if_pos hq]
      simp [List.lookup]
    · have hq' : q.1 ≠ name := by simpa using hq
      have hnq : (name == q.1) = false := by
        simpa using Ne.symm hq'
      by_cases hr : rest.any (fun p => p.1 == name) = true
      · rw [if_pos (by simp [List.any_cons, hr])]
        rw [List.map_cons, if_neg hq]
        rw [add_custom_pattern, if_pos hr] at ih
        simpa [List.lookup, hnq] using ih
      · rw [if_neg (by simp [List.any_cons, hq, hr])]
        rw [add_custom_pattern, if_neg hr] at ih
        simpa [List.lookup, hnq] using ih

/-! ### Claims C1 – C4, C9: the matching algorithm -/

/-- C1: for every column list and every state of the pattern registry
(a dict, hence distinct feature names), `find_matching_columns` returns
exactly the mapping of the greedy algorithm: features in declaration
order, each feature's patterns in declared order, columns in given order;
a feature binds to the first matching unconsumed column, its remaining
patterns are skipped, and an unmatched feature is simply absent. -/
theorem C1_find_eq_greedy_spec (m : String → String → Bool)
    (fps : List (String × List String)) (cols : List String)
    (h : (fps.map Prod.fst).Nodup) :
    find_matching_columns m fps cols = greedyMatching m cols [] fps :=
  find_eq_greedy m fps cols h

theorem C1_find_eq_greedy_spec_witness :
    find_matching_columns ciContains defaultFeaturePatterns ["t_batt", "temp"]
      = greedyMatching ciContains ["t_batt", "temp"] [] defaultFeaturePatterns :=
  C1_find_eq_greedy_spec ciContains defaultFeaturePatterns ["t_batt", "temp"]
    (by decide)

/-- C2: no column name appears as the value of more than one feature in the
mapping returned by `find_matching_columns` (no double consumption). -/
theorem C2_values_nodup (m : String → String → Bool)
    (fps : List (String × List String)) (cols : List String)
    (h : (fps.map Prod.fst).Nodup) :
    ((find_matching_columns m fps cols).map Prod.snd).Nodup := by
  rw [find_eq_greedy m fps cols h]
  exact greedyMatching_snd_nodup m cols fps []

theorem C2_values_nodup_witness :
    ((find_matching_columns ciContains defaultFeaturePatterns
        ["Cap_Ah", "Voltage_V", "Current_A"]).map Prod.snd).Nodup :=
  C2_values_nodup ciContains defaultFeaturePatterns
    ["Cap_Ah", "Voltage_V", "Current_A"] (by decide)

/-- C3: every value of the mapping returned by `find_matching_columns` is
one of the input column names. -/
theorem C3_values_mem_columns (m : String → String → Bool)
    (fps : List (String × List String)) (cols : List String)
    (h : (fps.map Prod.fst).Nodup) :
    ∀ q ∈ find_matching_columns m fps cols, q.2 ∈ cols := by
  intro q hq
  rw [find_eq_greedy m fps cols h] at hq
  exact (greedyMatching_mem m cols fps [] q hq).2.1

theorem C3_values_mem_columns_witness :
    ("temperature", "temp") ∈
        find_matching_columns ciContains defaultFeaturePatterns ["t_batt", "temp"]
      ∧ "temp" ∈ ["t_batt", "temp"] :=
  ⟨by decide,
   C3_values_mem_columns ciContains defaultFeaturePatterns ["t_batt", "temp"]
     (by decide) ("temperature", "temp") (by decide)⟩

/-- C4 (counterexample): with the default built-in patterns, on the columns
`["t_batt", "temp"]` the temperature feature is NOT bound to `"t_batt"`:
the pattern `temp` precedes `t_batt` in the declared pattern list and
already matches the column `"temp"`. -/
theorem C4_counterexample :
    List.lookup "temperature"
        (find_matching_columns ciContains defaultFeaturePatterns
          ["t_batt", "temp"])
      ≠ some "t_batt" := by decide

/-- C4 (amended): with the default built-in patterns, on the columns
`["t_batt", "temp"]` the temperature feature binds to `"temp"` (its
pattern `temp` is declared before `t_batt`, and `"t_batt"` does not
contain the substring `temp`), `"t_batt"` is left unconsumed, and no other
feature matches. -/
theorem C4_temperature_binds_temp :
    find_matching_columns ciContains defaultFeaturePatterns ["t_batt", "temp"]
      = [("temperature", "temp")] := by decide

/-- C9: `add_custom_pattern` sets the feature's pattern list to exactly the
given list, discarding any previous one (built-ins included): looking up
the feature yields the new list, and after
`add_custom_pattern("capacity", ["foo"])` no column list free of the
substring `foo` — in particular columns containing `capacity` — yields a
match for the capacity feature. -/
theorem C9_add_custom_pattern_overwrites :
    (∀ (fps : List (String × List String)) (name : String) (pats : List String),
        List.lookup name (add_custom_pattern fps name pats) = some pats)
    ∧ (∀ cols : List String,
        (∀ c ∈ cols, ciContains "foo" c = false) →
        "capacity" ∉ (find_matching_columns ciContains
            (add_custom_pattern defaultFeaturePatterns "capacity" ["foo"])
            cols).map Prod.fst) := by
  constructor
  · intro fps name pats
    exact lookup_add_custom_pattern name pats fps
  · intro cols hcols
    have hnd : ((add_custom_pattern defaultFeaturePatterns "capacity"
        ["foo"]).map Prod.fst).Nodup := by decide
    rw [find_eq_greedy _ _ _ hnd]
    have hreg : add_custom_pattern defaultFeaturePatterns "capacity" ["foo"]
        = ("capacity", ["foo"]) :: defaultFeaturePatterns.tail := by decide
    rw [hreg]
    have hfe : firstEligible ciContains "foo" [] cols = none :=
      firstEligible_none ciContains "foo" [] cols hcols
    have hfm : featureMatch ciContains [] cols ["foo"] = none := by
      rw [featureMatch, hfe]; rfl
    rw [greedyMatching, hfm]
    intro hmem
    obtain ⟨q, hq, hq1⟩ := List.mem_map.mp hmem
    have h1 := (greedyMatching_mem ciContains cols
      defaultFeaturePatterns.tail [] q hq).1
    rw [hq1] at h1
    exact absurd h1 (by decide)

theorem C9_add_custom_pattern_overwrites_witness :
    (List.lookup "capacity"
        (add_custom_pattern defaultFeaturePatterns "capacity" ["foo"])
      = some ["foo"])
    ∧ "capacity" ∉ (find_matching_columns ciContains
        (add_custom_pattern defaultFeaturePatterns "capacity" ["foo"])
        ["capacity_Ah"]).map Prod.fst :=
  ⟨C9_add_custom_pattern_overwrites.1 defaultFeaturePatterns "capacity" ["foo"],
   C9_add_custom_pattern_overwrites.2 ["capacity_Ah"] (by decide)⟩

/-! ### Lemmas: extraction -/

/-- Every column of the extraction result is named after a mapping key. -/
lemma extract_features_keys_sub (df : Table) :
    ∀ (mapping : List (String × String)) (q : String × Column),
    q ∈ (extract_features df mapping).1 → q.1 ∈ mapping.map Prod.fst := by
  intro mapping
  induction mapping with
  | nil => intro q h; simp [extract_features] at h
  | cons p rest ih =>
    intro q h
    obtain ⟨f, c⟩ := p
    simp only [extract_features] at h
    cases hl : List.lookup c df with
    | some col =>
      simp only [hl] at h
      rcases List.mem_cons.mp h with h | h
      · subst h; simp
      · simpa using Or.inr (ih q h)
    | none =>
      simp only [hl] at h
      simpa using Or.inr (ih q h)

/-- Pairs whose column is absent from the table contribute nothing to the
extraction result: filtering them away leaves the result table unchanged. -/
lemma extract_features_filter (df : Table) :
    ∀ mapping : List (String × String),
    (extract_features df mapping).1 =
      (extract_features df
        (mapping.filter (fun q => (List.lookup q.2 df).isSome))).1 := by
  intro mapping
  induction mapping with
  | nil => rfl
  | cons p rest ih =>
    obtain ⟨f, c⟩ := p
    cases hl : List.lookup c df with
    | some col =>
      rw [List.filter_cons_of_pos (by simp [hl])]
      simp only [extract_features, hl]
      rw [ih]
    | none =>
      rw [List.filter_cons_of_neg (by simp [hl])]
      simp only [extract_features, hl]
      exact ih

/-! ### Claims C5, C6: extraction -/

/-- C5 (counterexample): for a mapping naming a column absent from the
table, the extraction result does not have the mapping's keys as its
columns — the absent pair is dropped. -/
theorem C5_counterexample :
    ((extract_features [("a", Column.numeric [some 1])] [("f", "b")]).1).map
        Prod.fst
      ≠ ([("f", "b")] : List (String × String)).map Prod.fst := by decide

/-- C5 (amended): for every table and every mapping (a dict, hence distinct
keys) all of whose values name columns present in the table, the extraction
result has as columns exactly the mapping's keys in mapping order, and each
column's values are copied verbatim from the corresponding source column. -/
theorem C5_extract_shape (df : Table) :
    ∀ mapping : List (String × String),
    (mapping.map Prod.fst).Nodup →
    (∀ q ∈ mapping, (List.lookup q.2 df).isSome) →
    (extract_features df mapping).1.map Prod.fst = mapping.map Prod.fst
    ∧ ∀ q ∈ mapping,
        List.lookup q.1 (extract_features df mapping).1 = List.lookup q.2 df := by
  intro mapping
  induction mapping with
  | nil => intro _ _; exact ⟨rfl, by simp⟩
  | cons p rest ih =>
    intro hnd hall
    obtain ⟨f, c⟩ := p
    simp only [List.map_cons, List.nodup_cons] at hnd
    obtain ⟨col, hcol⟩ := Option.isSome_iff_exists.mp (hall (f, c) (by simp))
    have hrest := ih hnd.2 fun q hq => hall q (by simp [hq])
    rw [extract_features, hcol]
    constructor
    · simpa using hrest.1
    · intro q hq
      rcases List.mem_cons.mp hq with hq | hq
      · subst hq
        simp [List.lookup, hcol]
      · have hne : q.1 ≠ f := by
          intro he
          exact hnd.1 (he ▸ List.mem_map_of_mem Prod.fst hq)
        have : (q.1 == f) = false := beq_eq_false_iff_ne.mpr hne
        simp only [List.lookup, this]
        exact hrest.2 q hq

theorem C5_extract_shape_witness :
    ((extract_features [("a", Column.numeric [some 1])] [("f", "a")]).1).map
        Prod.fst = [("f", "a")].map Prod.fst
    ∧ ∀ q ∈ ([("f", "a")] : List (String × String)),
        List.lookup q.1
            (extract_features [("a", Column.numeric [some 1])] [("f", "a")]).1
          = List.lookup q.2 [("a", Column.numeric [some 1])] :=
  C5_extract_shape [("a", Column.numeric [some 1])] [("f", "a")]
    (by decide) (by decide)

/-- A pair whose column is missing from the table leaves its feature out of
the result and contributes the warning diagnostic. -/
lemma extract_features_key_skipped (df : Table) (f c : String)
    (habs : List.lookup c df = none) :
    ∀ mapping : List (String × String),
    (mapping.map Prod.fst).Nodup → (f, c) ∈ mapping →
    f ∉ ((extract_features df mapping).1).map Prod.fst
    ∧ Diag.columnNotFound c ∈ (extract_features df mapping).2 := by
  intro mapping
  induction mapping with
  | nil => intro _ h; simp at h
  | cons p rest ih =>
    intro hnd hmem
    obtain ⟨g, d⟩ := p
    simp only [List.map_cons, List.nodup_cons] at hnd
    rcases List.mem_cons.mp hmem with hq | hq
    · cases hq
      rw [extract_features, habs]
      constructor
      · intro hmemf
        obtain ⟨q, hq', he⟩ := List.mem_map.mp hmemf
        have := extract_features_keys_sub df rest q hq'
        rw [he] at this
        exact hnd.1 this
      · simp
    · have hf : f ∈ rest.map Prod.fst := by
        simpa using List.mem_map_of_mem Prod.fst hq
      have hgf : g ≠ f := fun he => hnd.1 (he ▸ hf)
      have ihr := ih hnd.2 hq
      rw [extract_features]
      cases hl : List.lookup d df with
      | some col =>
        refine ⟨?_, ihr.2⟩
        intro hmemf
        rcases List.mem_cons.mp hmemf with he | he
        · exact hgf he.symm
        · exact ihr.1 he
      | none =>
        exact ⟨ihr.1, List.mem_cons_of_mem _ ihr.2⟩

/-- C6: a mapping pair whose column is absent from the table is non-fatal:
its feature is absent from the result, the warning diagnostic is emitted,
and the remaining pairs are processed as if the absent pair were not
there. -/
theorem C6_absent_column_skipped (df : Table)
    (mapping : List (String × String)) (f c : String)
    (hnd : (mapping.map Prod.fst).Nodup)
    (hmem : (f, c) ∈ mapping)
    (habs : List.lookup c df = none) :
    f ∉ ((extract_features df mapping).1).map Prod.fst
    ∧ Diag.columnNotFound c ∈ (extract_features df mapping).2
    ∧ (extract_features df mapping).1
        = (extract_features df
            (mapping.filter (fun q => (List.lookup q.2 df).isSome))).1 :=
  ⟨(extract_features_key_skipped df f c habs mapping hnd hmem).1,
   (extract_features_key_skipped df f c habs mapping hnd hmem).2,
   extract_features_filter df mapping⟩

theorem C6_absent_column_skipped_witness :
    "f" ∉ ((extract_features [("a", Column.numeric [some 1])]
        [("f", "b"), ("g", "a")]).1).map Prod.fst
    ∧ Diag.columnNotFound "b" ∈ (extract_features
        [("a", Column.numeric [some 1])] [("f", "b"), ("g", "a")]).2
    ∧ (extract_features [("a", Column.numeric [some 1])]
        [("f", "b"), ("g", "a")]).1
        = (extract_features [("a", Column.numeric [some 1])]
            ([("f", "b"), ("g", "a")].filter
              (fun q => (List.lookup q.2
                ([("a", Column.numeric [some 1])] : Table)).isSome))).1 :=
  C6_absent_column_skipped [("a", Column.numeric [some 1])]
    [("f", "b"), ("g", "a")] "f" "b" (by decide) (by decide) (by decide)

/-! ### Claim C7: format dispatch -/

/-- C7: any path whose (case-insensitively compared) extension is none of
`.csv`, `.xlsx`, `.xls`, `.parquet`, `.json` makes `load_dataset` raise the
unsupported-format error carrying that extension; in particular a `.tsv`
path raises with extension `".tsv"` (see the witness). -/
theorem C7_unsupported_extension (path : String)
    (h : lowerStr (splitext path).2 ∉
      ([".csv", ".xlsx", ".xls", ".parquet", ".json"] : List String)) :
    load_dataset path
      = LoadResult.unsupportedFormat (lowerStr (splitext path).2) := by
  simp only [List.mem_cons, List.not_mem_nil, or_false, not_or] at h
  obtain ⟨h1, h2, h3, h4, h5⟩ := h
  have e1 : (lowerStr (splitext path).2 == ".csv") = false :=
    beq_eq_false_iff_ne.mpr h1
  have e2 : (lowerStr (splitext path).2 == ".xlsx") = false :=
    beq_eq_false_iff_ne.mpr h2
  have e3 : (lowerStr (splitext path).2 == ".xls") = false :=
    beq_eq_false_iff_ne.mpr h3
  have e4 : (lowerStr (splitext path).2 == ".parquet") = false :=
    beq_eq_false_iff_ne.mpr h4
  have e5 : (lowerStr (splitext path).2 == ".json") = false :=
    beq_eq_false_iff_ne.mpr h5
  simp [load_dataset, e1, e2, e3, e4, e5]

theorem C7_unsupported_extension_witness :
    load_dataset "data.tsv" = LoadResult.unsupportedFormat ".tsv" := by
  have h := C7_unsupported_extension "data.tsv" (by decide)
  rw [h]
  rfl

/-! ### Claims C8, C10: missing-value handling -/

/-- C8: an unrecognised strategy never raises; apart from the warning
diagnostic, the call behaves exactly like strategy `"mean"` — same
resulting store and same returned frame. -/
theorem C8_unknown_strategy_is_mean (st : Store) (df : Nat) (strategy : String)
    (h : strategy ∉
      (["mean", "median", "drop", "forward_fill", "backward_fill"] :
        List String)) :
    (handle_missing_values st df strategy).1
        = (handle_missing_values st df "mean").1
    ∧ (handle_missing_values st df strategy).2.1
        = (handle_missing_values st df "mean").2.1 := by
  simp only [List.mem_cons, List.not_mem_nil, or_false, not_or] at h
  obtain ⟨hmean, hmedian, hdrop, hff, hbf⟩ := h
  have e1 : (strategy == "drop") = false := beq_eq_false_iff_ne.mpr hdrop
  have e2 : (strategy == "mean") = false := beq_eq_false_iff_ne.mpr hmean
  have e3 : (strategy == "median") = false := beq_eq_false_iff_ne.mpr hmedian
  have e4 : (strategy == "forward_fill") = false := beq_eq_false_iff_ne.mpr hff
  have e5 : (strategy == "backward_fill") = false := beq_eq_false_iff_ne.mpr hbf
  constructor <;> simp [handle_missing_values, e1, e2, e3, e4, e5]

theorem C8_unknown_strategy_is_mean_witness :
    (handle_missing_values ⟨[[("a", Column.numeric [some 1, none])]]⟩ 0
          "bogus").1
        = (handle_missing_values ⟨[[("a", Column.numeric [some 1, none])]]⟩ 0
          "mean").1
    ∧ (handle_missing_values ⟨[[("a", Column.numeric [some 1, none])]]⟩ 0
          "bogus").2.1
        = (handle_missing_values ⟨[[("a", Column.numeric [some 1, none])]]⟩ 0
          "mean").2.1 :=
  C8_unknown_strategy_is_mean ⟨[[("a", Column.numeric [some 1, none])]]⟩ 0
    "bogus" (by decide)

/-- C10: `handle_missing_values` works on a copy: whatever the strategy,
the caller's dataframe is unchanged after the call — the store only grows
by fresh frames, and the frame at the caller's index still holds its old
value. -/
theorem C10_input_frame_unchanged (st : Store) (df : Nat) (strategy : String)
    (h : df < st.tables.length) :
    readT (handle_missing_values st df strategy).1 df = readT st df := by
  have key : ∀ t1 t2 : Table,
      (st.tables ++ [t1] ++ [t2]).getD df [] = st.tables.getD df [] := by
    intro t1 t2
    rw [List.append_assoc, List.getD_append _ _ _ _ h]
  simp only [handle_missing_values, alloc, readT]
  split
  · exact key _ _
  · split
    · exact key _ _
    · split
      · exact key _ _
      · split
        · exact key _ _
        · split
          · exact key _ _
          · exact key _ _

theorem C10_input_frame_unchanged_witness :
    readT (handle_missing_values ⟨[[("a", Column.numeric [some 1, none])]]⟩ 0
        "drop").1 0
      = readT ⟨[[("a", Column.numeric [some 1, none])]]⟩ 0 :=
  C10_input_frame_unchanged ⟨[[("a", Column.numeric [some 1, none])]]⟩ 0
    "drop" (by decide)
